import Mathlib

/-!
Verification of the event-distribution engine of the mongo-realtime
repository (src/index.js) against its specification.

The engine is shallowly embedded: each handler of the source is a Lean
function over explicit state, and every claim is settled as a theorem
about those functions.
-/

namespace MongoRealtime

/-- Operation types a change event can carry: the operationType field of a
change stream document (src/index.js, ChangeStreamDocument typedef). -/
inductive OpType
  | insert
  | update
  | replace
  | delete
  | invalidate
  | drop
  | dropDatabase
  | rename
deriving DecidableEq, Repr

/-- A cached document: an opaque payload keyed by the string form of its id
(doc._id.toString() in src/index.js). -/
structure Doc where
  id : String
  payload : Nat
deriving DecidableEq, Repr

/-- Cache mutation switch of the change handler (src/index.js lines 179 to
199), which runs only when the cache entry of the collection already exists:
insert unshifts the full document onto the front, update and replace map
every entry whose id equals the document key id to the full document, delete
filters those entries out, and every other operation type leaves the cached
sequence unchanged. -/
def applyCacheEvent (cache : List Doc) (op : OpType) (docId : String)
    (fullDocument : Doc) : List Doc :=
  match op with
  | .insert => fullDocument :: cache
  | .update => cache.map (fun doc => if doc.id == docId then fullDocument else doc)
  | .replace => cache.map (fun doc => if doc.id == docId then fullDocument else doc)
  | .delete => cache.filter (fun doc => !(doc.id == docId))
  | _ => cache

/-- Descending comparison on document ids: the sort key of the snapshot
query sort with id descending, so the store answers most-recently-created
first. -/
def idDesc (a b : Doc) : Prop := b.id ≤ a.id

instance : DecidableRel idDesc := fun a b => by
  unfold idDesc; infer_instance

/-- Denotation of the snapshot fetch find all, sort id descending, toArray
(src/index.js lines 173 to 177): the store contents ordered by descending
id. -/
def fetchSnapshot (store : List Doc) : List Doc :=
  store.insertionSort idDesc

/-- Cache branch of the change handler (src/index.js lines 172 to 199): when
no cache entry exists for the collection the full snapshot is fetched and
installed as the cache, and the incremental mutation switch is not run;
when the entry exists the mutation switch is applied. -/
def handleCacheChange (cache : Option (List Doc)) (store : List Doc)
    (op : OpType) (docId : String) (fullDocument : Doc) : List Doc :=
  match cache with
  | none => fetchSnapshot store
  | some c => applyCacheEvent c op docId fullDocument

/-- C1: on a populated cache, an insert prepends the full document; an update
or replace rewrites exactly the positions whose entry has the document key id
(in place, all other entries and all positions unchanged) and is a no-op when
the id is absent; a delete removes exactly the entries with that id keeping
the rest in order and is a no-op when the id is absent; drop, rename,
invalidate and dropDatabase leave the cached sequence unchanged. -/
theorem cache_mutation_per_operation (cache : List Doc) (docId : String)
    (fd : Doc) :
    (applyCacheEvent cache .insert docId fd = fd :: cache)
    ∧ (∀ op, (op = OpType.update ∨ op = OpType.replace) →
        ((∀ i : Nat, (applyCacheEvent cache op docId fd)[i]? =
            (cache[i]?).map (fun d => if d.id = docId then fd else d))
        ∧ ((∀ d ∈ cache, d.id ≠ docId) →
            applyCacheEvent cache op docId fd = cache)))
    ∧ ((∀ d ∈ cache, d.id ≠ docId) →
        applyCacheEvent cache .delete docId fd = cache)
    ∧ (∀ d, d ∈ applyCacheEvent cache .delete docId fd ↔
        (d ∈ cache ∧ d.id ≠ docId))
    ∧ (applyCacheEvent cache .delete docId fd).Sublist cache
    ∧ (∀ op, (op = OpType.drop ∨ op = OpType.rename ∨ op = OpType.invalidate
          ∨ op = OpType.dropDatabase) →
        applyCacheEvent cache op docId fd = cache) := by
  refine ⟨rfl, ?_, ?_, ?_, ?_, ?_⟩
  · rintro op (rfl | rfl) <;> refine ⟨?_, ?_⟩
    · intro i
      simp [applyCacheEvent, List.getElem?_map, beq_iff_eq]
    · intro h
      simp only [applyCacheEvent]
      conv_rhs => rw [← List.map_id cache]
      refine List.map_congr_left ?_
      intro d hd
      simp [beq_iff_eq, h d hd]
    · intro i
      simp [applyCacheEvent, List.getElem?_map, beq_iff_eq]
    · intro h
      simp only [applyCacheEvent]
      conv_rhs => rw [← List.map_id cache]
      refine List.map_congr_left ?_
      intro d hd
      simp [beq_iff_eq, h d hd]
  · intro h
    simp only [applyCacheEvent]
    rw [List.filter_eq_self]
    intro d hd
    simp [beq_iff_eq, h d hd]
  · intro d
    simp [applyCacheEvent, List.mem_filter, beq_iff_eq]
  · exact List.filter_sublist cache
  · rintro op (rfl | rfl | rfl | rfl) <;> rfl

/-- Concrete instantiation of the cache mutation theorem, discharging its
conditional parts on an explicit cache. -/
theorem cache_mutation_per_operation_check :
    (applyCacheEvent [⟨"a", 0⟩] .insert "b" ⟨"b", 1⟩ = [⟨"b", 1⟩, ⟨"a", 0⟩])
    ∧ (applyCacheEvent [⟨"a", 0⟩] .update "b" ⟨"b", 1⟩ = [⟨"a", 0⟩])
    ∧ (applyCacheEvent [⟨"a", 0⟩] .delete "b" ⟨"b", 1⟩ = [⟨"a", 0⟩]) := by
  have h := cache_mutation_per_operation [⟨"a", 0⟩] "b" ⟨"b", 1⟩
  refine ⟨h.1, ?_, ?_⟩
  · exact (h.2.1 .update (Or.inl rfl)).2 (by decide)
  · exact h.2.2.1 (by decide)

/-- C10: when the cache entry of the collection is absent, the handler
installs the snapshot fetched from the store, ordered most recently created
first (descending id); the installed cache is a permutation of the store, is
sorted descending, and does not depend on the triggering event, whose
incremental mutation is therefore not applied; the mutation switch runs
exactly when the cache entry exists. -/
theorem snapshot_install_on_cache_miss (store : List Doc) (op : OpType)
    (docId : String) (fd : Doc) :
    (handleCacheChange none store op docId fd = fetchSnapshot store)
    ∧ (∀ op2 docId2 fd2, handleCacheChange none store op docId fd =
        handleCacheChange none store op2 docId2 fd2)
    ∧ (handleCacheChange none store op docId fd).Perm store
    ∧ List.Sorted idDesc (handleCacheChange none store op docId fd)
    ∧ (∀ c, handleCacheChange (some c) store op docId fd =
        applyCacheEvent c op docId fd) := by
  haveI : IsTotal Doc idDesc := ⟨fun a b => le_total b.id a.id⟩
  haveI : IsTrans Doc idDesc := ⟨fun _ _ _ h1 h2 => le_trans h2 h1⟩
  refine ⟨rfl, fun _ _ _ => rfl, ?_, ?_, fun _ => rfl⟩
  · exact store.perm_insertionSort idDesc
  · exact store.sorted_insertionSort idDesc

/-- String name of an operation type, as carried in the operationType field
of the change event. -/
def OpType.typeName : OpType → String
  | .insert => "insert"
  | .update => "update"
  | .replace => "replace"
  | .delete => "delete"
  | .invalidate => "invalidate"
  | .drop => "drop"
  | .dropDatabase => "dropDatabase"
  | .rename => "rename"

/-- Truthiness of the optional document key id, as tested by if id in the
classifier handler: absent (undefined) and the empty string are falsy, every
other string is truthy. -/
def jsTruthyOptId : Option String → Bool
  | none => false
  | some s => !(s == "")

/-- Classifier handler of the change stream (src/index.js lines 219 to 248):
builds the topic list db:change, db type, db change collection, db type
collection, then appends the two document topics when the document key id is
truthy. The collection name is lower-cased first. -/
def classifyTopics (op : OpType) (coll : String) (docKeyId : Option String) :
    List String :=
  let colName := coll.toLower
  let e_change := "db:change"
  let e_change_type := "db:" ++ op.typeName
  let e_change_col := e_change ++ ":" ++ colName
  let e_change_type_col := e_change_type ++ ":" ++ colName
  let events := [e_change, e_change_type, e_change_col, e_change_type_col]
  match docKeyId with
  | none => events
  | some i =>
      if i == "" then events
      else events ++ [e_change_col ++ ":" ++ i, e_change_type_col ++ ":" ++ i]

/-- The two delivery paths of the emission loop: the transport (io.emit) and
the in-process listeners (notifyListeners). -/
inductive EmitTarget
  | transport
  | listeners
deriving DecidableEq, Repr

/-- Emission loop of the classifier handler (src/index.js lines 244 to 247):
for each topic, emit on the transport and notify the in-process listeners,
in topic order. -/
def emitChange (op : OpType) (coll : String) (docKeyId : Option String) :
    List (EmitTarget × String) :=
  (classifyTopics op coll docKeyId).flatMap
    (fun e => [(EmitTarget.transport, e), (EmitTarget.listeners, e)])

/-- Topics delivered to one target, in emission order. -/
def topicsTo (t : EmitTarget) (op : OpType) (coll : String)
    (docKeyId : Option String) : List String :=
  (emitChange op coll docKeyId).filterMap
    (fun p => if p.1 == t then some p.2 else none)

lemma topics_six_nodup (op : OpType) (C I : String) :
    (["db:change", "db:" ++ op.typeName, "db:change" ++ ":" ++ C,
      "db:" ++ op.typeName ++ ":" ++ C,
      "db:change" ++ ":" ++ C ++ ":" ++ I,
      "db:" ++ op.typeName ++ ":" ++ C ++ ":" ++ I] : List String).Nodup := by
  simp only [List.nodup_cons, List.mem_cons, List.mem_singleton,
    List.not_mem_nil, List.nodup_nil, or_false, not_or, and_true]
  refine ⟨⟨?_,?_,?_,?_,?_⟩,⟨?_,?_,?_,?_⟩,⟨?_,?_,?_⟩,⟨?_,?_⟩,?_,not_false⟩ <;>
    (intro h; have h2 := congrArg String.data h; clear h;
     cases op <;> simp [OpType.typeName, String.data_append] at h2)

lemma topics_four_nodup (op : OpType) (C : String) :
    (["db:change", "db:" ++ op.typeName, "db:change" ++ ":" ++ C,
      "db:" ++ op.typeName ++ ":" ++ C] : List String).Nodup :=
  List.Nodup.sublist
    (List.sublist_append_left _
      ["db:change" ++ ":" ++ C ++ ":" ++ "",
       "db:" ++ op.typeName ++ ":" ++ C ++ ":" ++ ""])
    (topics_six_nodup op C "")

lemma filterMap_emitChange (t : EmitTarget) (l : List String) :
    (l.flatMap (fun e => [(EmitTarget.transport, e), (EmitTarget.listeners, e)])).filterMap
      (fun p => if p.1 == t then some p.2 else none) = l := by
  induction l with
  | nil => rfl
  | cons a l ih => cases t <;> simp_all [List.flatMap_cons, List.filterMap_append]

/-- C2: for a change event of operation type T on collection C with optional
document key id I, the topics emitted to the transport and to the in-process
listeners are exactly db:change, db:T, db:change:c, db:T:c (c the
lower-cased collection) when I is not truthy (absent or empty), and exactly
those four followed by db:change:c:I and db:T:c:I when I is a truthy string,
with no duplicates, both targets receiving the same topics in that order. -/
theorem classifier_topic_set (op : OpType) (coll : String)
    (dki : Option String) :
    (jsTruthyOptId dki = false →
      classifyTopics op coll dki =
        ["db:change", "db:" ++ op.typeName,
         "db:change" ++ ":" ++ coll.toLower,
         "db:" ++ op.typeName ++ ":" ++ coll.toLower])
    ∧ (∀ i, dki = some i → i ≠ "" →
      classifyTopics op coll dki =
        ["db:change", "db:" ++ op.typeName,
         "db:change" ++ ":" ++ coll.toLower,
         "db:" ++ op.typeName ++ ":" ++ coll.toLower,
         "db:change" ++ ":" ++ coll.toLower ++ ":" ++ i,
         "db:" ++ op.typeName ++ ":" ++ coll.toLower ++ ":" ++ i])
    ∧ (classifyTopics op coll dki).Nodup
    ∧ topicsTo .transport op coll dki = classifyTopics op coll dki
    ∧ topicsTo .listeners op coll dki = classifyTopics op coll dki := by
  refine ⟨?_, ?_, ?_, filterMap_emitChange _ _, filterMap_emitChange _ _⟩
  · rcases dki with _ | i
    · intro _; rfl
    · intro h
      simp only [jsTruthyOptId, Bool.not_eq_false'] at h
      simp [classifyTopics, h]
  · rintro i rfl hi
    simp [classifyTopics, hi]
  · rcases dki with _ | i
    · exact topics_four_nodup op coll.toLower
    · simp only [classifyTopics]
      by_cases hi : i == ""
      · simp only [hi, if_true]
        exact topics_four_nodup op coll.toLower
      · simp only [hi, if_false]
        exact topics_six_nodup op coll.toLower i

/-- Concrete instantiation of the classifier theorem: an insert on
collection Users with document id 42 yields the six topics, and the
hypotheses of the conditional parts are discharged explicitly. -/
theorem classifier_topic_set_check :
    classifyTopics OpType.insert "Users" (some "42") =
      ["db:change", "db:" ++ OpType.insert.typeName,
       "db:change" ++ ":" ++ "Users".toLower,
       "db:" ++ OpType.insert.typeName ++ ":" ++ "Users".toLower,
       "db:change" ++ ":" ++ "Users".toLower ++ ":" ++ "42",
       "db:" ++ OpType.insert.typeName ++ ":" ++ "Users".toLower ++ ":" ++ "42"] :=
  (classifier_topic_set OpType.insert "Users" (some "42")).2.1 "42" rfl
    (by decide)

/-- Settlement of the promise a filter call returned, as observed through
Promise.allSettled: fulfilled with a value of some truthiness, or rejected
(the returned promise rejected, the asynchronous failure path). -/
inductive FilterOutcome
  | fulfilled (truthy : Bool)
  | rejected
deriving DecidableEq, Repr

/-- Keep test filterResults[i] && filterResults[i].value of the recompute
handler: a fulfilled result is kept when its value is truthy; a rejected
result has no value field (undefined, falsy) and is dropped. -/
def keepResult : FilterOutcome → Bool
  | .fulfilled b => b
  | .rejected => false

/-- Result of invoking a filter on one document: either the call returns a
promise whose eventual settlement is the given outcome, or the call itself
throws synchronously before returning a promise. -/
inductive FilterCall
  | returns (outcome : FilterOutcome)
  | throws
deriving DecidableEq, Repr

/-- The call cache.map(doc => value.filter(doc)): Array.map invokes the
filter on each document left to right and an exception from any call
escapes the map at once, so the documents after the throwing one are never
evaluated. On success the array of returned promises is recorded by their
eventual settlements. -/
def mapFilters (docs : List Doc) (flt : Doc → FilterCall) :
    Except Unit (List FilterOutcome) :=
  match docs with
  | [] => .ok []
  | d :: rest =>
      match flt d with
      | .throws => .error ()
      | .returns o => (mapFilters rest flt).map (fun l => o :: l)

/-- Stream recompute over the cached documents, shared by the change
handler (src/index.js lines 205 to 211) and the stream register snapshot
handler (lines 305 to 311): the filters are mapped over the cache first;
only when no call throws does Promise.allSettled observe the settlements,
and the cache is then filtered by position against them. A synchronous
throw escapes the map before allSettled is called, so the recompute of
that stream aborts with the escaped exception and no filtered result (the
enclosing async callback turns it into a swallowed rejected promise, and
nothing is emitted for that stream that cycle). -/
def recomputeStream (docs : List Doc) (flt : Doc → FilterCall) :
    Except Unit (List Doc) :=
  (mapFilters docs flt).map (fun filterResults =>
    (docs.zip filterResults).filterMap
      (fun p => if keepResult p.2 then some p.1 else none))

/-- Settlement of a call that did not throw; the value on the throwing
branch is never consulted. -/
def settleCall : FilterCall → FilterOutcome
  | .returns o => o
  | .throws => .rejected

/-- Keep test composed over a non-throwing call. -/
def keepCall (c : FilterCall) : Bool := keepResult (settleCall c)

lemma mapFilters_ok (flt : Doc → FilterCall) (docs : List Doc)
    (h : ∀ d ∈ docs, flt d ≠ .throws) :
    mapFilters docs flt = .ok (docs.map (fun d => settleCall (flt d))) := by
  induction docs with
  | nil => rfl
  | cons d rest ih =>
      rcases hc : flt d with o | _
      · have hrest := ih (fun x hx => h x (List.mem_cons_of_mem d hx))
        simp [mapFilters, hc, hrest, settleCall, Except.map]
      · exact absurd hc (h d (by simp))

lemma mapFilters_throws (flt : Doc → FilterCall) (docs : List Doc)
    (d : Doc) (hd : d ∈ docs) (ht : flt d = .throws) :
    mapFilters docs flt = .error () := by
  induction docs with
  | nil => cases hd
  | cons a rest ih =>
      rcases hc : flt a with o | _
      · rcases List.mem_cons.mp hd with rfl | hmem
        · rw [hc] at ht; cases ht
        · simp [mapFilters, hc, ih hmem, Except.map]
      · simp [mapFilters, hc]

lemma zip_settle_filterMap (flt : Doc → FilterCall) (docs : List Doc) :
    ((docs.zip (docs.map (fun d => settleCall (flt d)))).filterMap
      (fun p => if keepResult p.2 then some p.1 else none))
    = docs.filter (fun d => keepCall (flt d)) := by
  induction docs with
  | nil => rfl
  | cons d rest ih =>
      simp only [List.map_cons, List.zip_cons_cons, List.filterMap_cons,
        List.filter_cons, keepCall]
      cases hk : keepResult (settleCall (flt d)) <;> simp [hk, ih, keepCall]

lemma recomputeStream_ok (flt : Doc → FilterCall) (docs : List Doc)
    (h : ∀ d ∈ docs, flt d ≠ .throws) :
    recomputeStream docs flt =
      .ok (docs.filter (fun d => keepCall (flt d))) := by
  rw [recomputeStream, mapFilters_ok flt docs h]
  simp [Except.map, zip_settle_filterMap]

/-- C3 counterexample: with a filter that throws synchronously on document
b and fulfills true elsewhere, the recompute of the batch a, b, c does not
confine the failure to b: instead of the filtered result a, c required by
the claim, the map throws before allSettled runs and the recompute aborts
with no filtered result at all. -/
theorem sync_throw_aborts_recompute :
    recomputeStream [⟨"a", 0⟩, ⟨"b", 1⟩, ⟨"c", 2⟩]
        (fun d => if d.id == "b" then .throws
          else .returns (.fulfilled true))
      = .error ()
    ∧ recomputeStream [⟨"a", 0⟩, ⟨"b", 1⟩, ⟨"c", 2⟩]
        (fun d => if d.id == "b" then .throws
          else .returns (.fulfilled true))
      ≠ .ok [⟨"a", 0⟩, ⟨"c", 2⟩] := by
  have h1 : recomputeStream [⟨"a", 0⟩, ⟨"b", 1⟩, ⟨"c", 2⟩]
      (fun d => if d.id == "b" then .throws
        else .returns (.fulfilled true))
    = .error () := rfl
  refine ⟨h1, ?_⟩
  rw [h1]
  intro h
  cases h

/-- C3 amended: a filter evaluation that returns a rejecting promise is a
false result for that document only: when no call of the batch throws
synchronously, the recompute is the pointwise filter of the cache, a
promise-rejected document is dropped, and the rest of its batch is still
evaluated and kept when truthy. A synchronously throwing filter instead
aborts the whole recompute of its stream: the result is the escaped
exception, whatever the documents after the throwing one would have
evaluated to (they are never consulted). -/
theorem filter_failure_isolated (flt : Doc → FilterCall) :
    (∀ docs, (∀ d ∈ docs, flt d ≠ .throws) →
      recomputeStream docs flt =
        .ok (docs.filter (fun d => keepCall (flt d))))
    ∧ (∀ l1 d l2, flt d = .returns .rejected →
        (∀ x ∈ l1 ++ d :: l2, flt x ≠ .throws) →
        ∃ r1 r2, recomputeStream l1 flt = .ok r1
          ∧ recomputeStream l2 flt = .ok r2
          ∧ recomputeStream (l1 ++ d :: l2) flt = .ok (r1 ++ r2))
    ∧ (∀ docs d, d ∈ docs → flt d = .throws →
        recomputeStream docs flt = .error ())
    ∧ (∀ l1 d l2 l2b, flt d = .throws →
        recomputeStream (l1 ++ d :: l2) flt =
          recomputeStream (l1 ++ d :: l2b) flt) := by
  have habort : ∀ docs d, d ∈ docs → flt d = .throws →
      recomputeStream docs flt = .error () := by
    intro docs d hd ht
    rw [recomputeStream, mapFilters_throws flt docs d hd ht]
    rfl
  refine ⟨recomputeStream_ok flt, ?_, habort, ?_⟩
  · intro l1 d l2 hrej h
    refine ⟨l1.filter (fun x => keepCall (flt x)),
      l2.filter (fun x => keepCall (flt x)), ?_, ?_, ?_⟩
    · exact recomputeStream_ok flt l1
        (fun x hx => h x (by simp [hx]))
    · exact recomputeStream_ok flt l2
        (fun x hx => h x (by simp [hx]))
    · rw [recomputeStream_ok flt _ h]
      simp [List.filter_append, List.filter_cons, hrej, keepCall,
        settleCall, keepResult]
  · intro l1 d l2 l2b ht
    rw [habort (l1 ++ d :: l2) d (by simp) ht,
      habort (l1 ++ d :: l2b) d (by simp) ht]

/-- Concrete instantiation of the amended isolation theorem: with a filter
whose promise rejects exactly on document b, the batch a, b, c recomputes
to the filtered result a, c. -/
theorem filter_failure_isolated_check :
    recomputeStream [⟨"a", 0⟩, ⟨"b", 1⟩, ⟨"c", 2⟩]
        (fun d => if d.id == "b" then .returns .rejected
          else .returns (.fulfilled true))
      = .ok [⟨"a", 0⟩, ⟨"c", 2⟩] := by
  have h := (filter_failure_isolated
      (fun d => if d.id == "b" then .returns .rejected
        else .returns (.fulfilled true))).1
    [⟨"a", 0⟩, ⟨"b", 1⟩, ⟨"c", 2⟩] (by decide)
  exact h.trans (by rfl)

/-- A registered list stream: its bound collection and its filter. -/
structure StreamEntry where
  collection : String
  flt : Doc → FilterOutcome

/-- The stream registry (the private streams record), keyed by stream id. -/
def StreamRegistry := String → Option StreamEntry

/-- The empty registry. -/
def emptyStreams : StreamRegistry := fun _ => none

/-- The default filter installed when none is supplied: always true. -/
def defaultFilter : Doc → FilterOutcome := fun _ => .fulfilled true

/-- addListStream (src/index.js lines 360 to 374): requires a truthy stream
id and collection, defaults the filter, throws before any mutation when
safe mode is on and the id is already registered, and otherwise stores the
entry under the id. -/
def addListStream (safe : Bool) (streams : StreamRegistry)
    (streamId collection : String) (flt : Option (Doc → FilterOutcome)) :
    Except String StreamRegistry :=
  if streamId == "" then .error "Stream id is required"
  else if collection == "" then .error "Collection is required"
  else
    let f := flt.getD defaultFilter
    if safe && (streams streamId).isSome then
      .error ("Stream " ++ streamId ++ " already registered or is reserved.")
    else
      .ok (fun k => if k == streamId then some ⟨collection, f⟩ else streams k)

/-- Registry as seen by the caller after the call: on a throw the registry
is unchanged (the throw precedes the assignment), on success the updated
registry stands; the second component is the error raised, if any. -/
def applyAddListStream (safe : Bool) (streams : StreamRegistry)
    (streamId collection : String) (flt : Option (Doc → FilterOutcome)) :
    StreamRegistry × Option String :=
  match addListStream safe streams streamId collection flt with
  | .ok r => (r, none)
  | .error e => (streams, some e)

/-- C4: a second addListStream with an id already registered throws under
safe mode and leaves the registry unchanged, so the first entry and its
filter remain active; with safe mode off it raises no error and replaces
the entry under that id with the new collection and filter, leaving every
other id unchanged. -/
theorem duplicate_stream_policy (streams : StreamRegistry)
    (streamId collection : String) (flt : Option (Doc → FilterOutcome))
    (e0 : StreamEntry) (h0 : streams streamId = some e0)
    (hid : streamId ≠ "") (hcoll : collection ≠ "") :
    ((applyAddListStream true streams streamId collection flt).2.isSome
      ∧ (applyAddListStream true streams streamId collection flt).1 = streams
      ∧ (applyAddListStream true streams streamId collection flt).1 streamId
          = some e0)
    ∧ ((applyAddListStream false streams streamId collection flt).2 = none
      ∧ (applyAddListStream false streams streamId collection flt).1 streamId
          = some ⟨collection, flt.getD defaultFilter⟩
      ∧ ∀ k, k ≠ streamId →
          (applyAddListStream false streams streamId collection flt).1 k
            = streams k) := by
  have hid2 : (streamId == "") = false := by simp [hid]
  have hcoll2 : (collection == "") = false := by simp [hcoll]
  constructor
  · have : applyAddListStream true streams streamId collection flt =
        (streams, some ("Stream " ++ streamId ++
          " already registered or is reserved.")) := by
      simp [applyAddListStream, addListStream, hid2, hcoll2, h0]
    rw [this]
    exact ⟨rfl, rfl, h0⟩
  · have : applyAddListStream false streams streamId collection flt =
        (fun k => if k == streamId then
            some ⟨collection, flt.getD defaultFilter⟩ else streams k,
          none) := by
      simp [applyAddListStream, addListStream, hid2, hcoll2]
    rw [this]
    refine ⟨rfl, by simp, ?_⟩
    intro k hk
    simp [hk]

/-- Concrete instantiation of the duplicate stream policy on a registry
holding stream s bound to users. -/
theorem duplicate_stream_policy_check :
    ((applyAddListStream true
        (fun k => if k == "s" then some ⟨"users", defaultFilter⟩ else none)
        "s" "posts" none).2.isSome
      ∧ (applyAddListStream true
          (fun k => if k == "s" then some ⟨"users", defaultFilter⟩ else none)
          "s" "posts" none).1 "s" = some ⟨"users", defaultFilter⟩)
    ∧ (applyAddListStream false
        (fun k => if k == "s" then some ⟨"users", defaultFilter⟩ else none)
        "s" "posts" none).1 "s" = some ⟨"posts", defaultFilter⟩ := by
  have h := duplicate_stream_policy
    (fun k => if k == "s" then some ⟨"users", defaultFilter⟩ else none)
    "s" "posts" none ⟨"users", defaultFilter⟩ (by simp) (by decide) (by decide)
  exact ⟨⟨h.1.1, h.1.2.2⟩, h.2.2.1⟩

/-- Collections selected for auto-streaming at startup (src/index.js lines
160 to 165): all discovered collections when autoListStream is null or
undefined, otherwise the discovered collections that the list names. -/
def collectionsToStream (collections : List String)
    (autoListStream : Option (List String)) : List String :=
  match autoListStream with
  | none => collections
  | some l => collections.filter (fun c => l.contains c)

/-- Startup auto-registration loop (src/index.js line 166): addListStream
col col for every selected collection, on the initially empty registry,
with the default safe mode. -/
def autoRegisterStreams (collections : List String)
    (autoListStream : Option (List String)) : StreamRegistry :=
  (collectionsToStream collections autoListStream).foldl
    (fun st c => (applyAddListStream true st c c none).1) emptyStreams

lemma autoRegister_foldl (L : List String) (st : StreamRegistry)
    (hne : ∀ c ∈ L, c ≠ "") (hnd : L.Nodup)
    (hfree : ∀ c ∈ L, st c = none) (k : String) :
    (L.foldl (fun s c => (applyAddListStream true s c c none).1) st) k =
      if k ∈ L then some ⟨k, defaultFilter⟩ else st k := by
  induction L generalizing st with
  | nil => simp
  | cons c L ih =>
      have hc : (c == "") = false := by simp [hne c (by simp)]
      have hstep : (applyAddListStream true st c c none).1 =
          fun k => if k == c then some ⟨c, defaultFilter⟩ else st k := by
        simp [applyAddListStream, addListStream, hc, hfree c (by simp)]
      rw [List.foldl_cons, hstep]
      have hnd2 := (List.nodup_cons.mp hnd).2
      have hcn := (List.nodup_cons.mp hnd).1
      rw [ih _ (fun d hd => hne d (by simp [hd])) hnd2 ?_ ]
      · by_cases hkL : k ∈ L
        · simp [hkL]
        · by_cases hkc : k = c <;> simp [hkL, hkc]
      · intro d hd
        have : (d == c) = false := by
          simp only [beq_eq_false_iff_ne, ne_eq]
          intro hdc
          exact hcn (hdc ▸ hd)
        simp [this, hfree d (by simp [hd])]

/-- C5: with the discovered collection set fixed, no autoListStream option
registers an unfiltered stream per discovered collection with id equal to
the collection name; the empty list registers none; a non-empty list
registers exactly the discovered collections it names, again with id equal
to the collection name. -/
theorem auto_stream_provisioning (collections : List String)
    (hne : ∀ c ∈ collections, c ≠ "") (hnd : collections.Nodup) :
    (∀ k, autoRegisterStreams collections none k =
        if k ∈ collections then some ⟨k, defaultFilter⟩ else none)
    ∧ (∀ k, autoRegisterStreams collections (some []) k = none)
    ∧ (∀ names k, autoRegisterStreams collections (some names) k =
        if k ∈ collections ∧ k ∈ names
        then some ⟨k, defaultFilter⟩ else none) := by
  refine ⟨?_, ?_, ?_⟩
  · intro k
    exact autoRegister_foldl collections emptyStreams hne hnd
      (fun _ _ => rfl) k
  · intro k
    simp [autoRegisterStreams, collectionsToStream, emptyStreams]
  · intro names k
    have hsub : ∀ c ∈ collections.filter (fun c => names.contains c),
        c ∈ collections := fun c hc => (List.mem_filter.mp hc).1
    have h := autoRegister_foldl
      (collections.filter (fun c => names.contains c)) emptyStreams
      (fun c hc => hne c (hsub c hc))
      (hnd.filter _) (fun _ _ => rfl) k
    rw [autoRegisterStreams, collectionsToStream, h]
    by_cases hk : k ∈ collections.filter (fun c => names.contains c)
    · have := List.mem_filter.mp hk
      simp_all [emptyStreams]
    · have : ¬(k ∈ collections ∧ k ∈ names) := by
        intro hand
        exact hk (List.mem_filter.mpr ⟨hand.1, by simp [hand.2]⟩)
      simp [hk, this, emptyStreams]

/-- Concrete instantiation of the auto-provisioning policy over the
discovered collections users and posts. -/
theorem auto_stream_provisioning_check :
    (autoRegisterStreams ["users", "posts"] none "users"
        = some ⟨"users", defaultFilter⟩)
    ∧ (autoRegisterStreams ["users", "posts"] (some []) "users" = none)
    ∧ (autoRegisterStreams ["users", "posts"] (some ["posts"]) "users" = none)
    ∧ (autoRegisterStreams ["users", "posts"] (some ["posts"]) "posts"
        = some ⟨"posts", defaultFilter⟩) := by
  have h := auto_stream_provisioning ["users", "posts"]
    (by decide) (by decide)
  refine ⟨(h.1 "users").trans (by simp), h.2.1 "users",
    (h.2.2 ["posts"] "users").trans (by simp),
    (h.2.2 ["posts"] "posts").trans (by simp)⟩

/-- A JavaScript value as far as the auth path inspects one: enough to
distinguish the boolean true from every falsy or non-boolean value. -/
inductive JsVal
  | boolean (b : Bool)
  | str (s : String)
  | num (n : Int)
  | null
  | undef
deriving DecidableEq, Repr

/-- JavaScript truthiness of a value. -/
def jsTruthy : JsVal → Bool
  | .boolean b => b
  | .str s => !(s == "")
  | .num n => !(n == 0)
  | .null => false
  | .undef => false

/-- Decision taken by the connection gate for one incoming connection. -/
inductive GateDecision
  | accept
  | reject (reason : String)
deriving DecidableEq, Repr

/-- Auth middleware (src/index.js lines 268 to 286). Without a configured
verifier every connection is admitted. Otherwise the token is the auth
token or else the authorization header (JS or); a falsy token rejects with
NO_TOKEN_PROVIDED; a verifier result strictly equal to boolean true admits;
any other result rejects with UNAUTHORIZED; a verifier throw or rejection
rejects with AUTH_ERROR. -/
def authGate (authentify : Option (JsVal → Except Unit JsVal))
    (authToken headerAuth : JsVal) : GateDecision :=
  match authentify with
  | none => .accept
  | some verify =>
      let token := if jsTruthy authToken then authToken else headerAuth
      if !(jsTruthy token) then .reject "NO_TOKEN_PROVIDED"
      else
        match verify token with
        | .ok v =>
            if v == .boolean true then .accept else .reject "UNAUTHORIZED"
        | .error _ => .reject "AUTH_ERROR"

/-- C6: with no verifier configured every connection is accepted; with one
configured, a falsy token in both handshake sources rejects with
NO_TOKEN_PROVIDED, a verifier result strictly equal to true admits, any
other returned value rejects with UNAUTHORIZED, and a verifier throw or
rejection rejects with AUTH_ERROR. -/
theorem connection_gate_contract (authToken headerAuth : JsVal) :
    (authGate none authToken headerAuth = .accept)
    ∧ (∀ verify, jsTruthy authToken = false → jsTruthy headerAuth = false →
        authGate (some verify) authToken headerAuth =
          .reject "NO_TOKEN_PROVIDED")
    ∧ (∀ verify,
        jsTruthy (if jsTruthy authToken then authToken else headerAuth)
          = true →
        verify (if jsTruthy authToken then authToken else headerAuth)
          = .ok (.boolean true) →
        authGate (some verify) authToken headerAuth = .accept)
    ∧ (∀ verify v,
        jsTruthy (if jsTruthy authToken then authToken else headerAuth)
          = true →
        verify (if jsTruthy authToken then authToken else headerAuth)
          = .ok v →
        v ≠ .boolean true →
        authGate (some verify) authToken headerAuth =
          .reject "UNAUTHORIZED")
    ∧ (∀ verify e,
        jsTruthy (if jsTruthy authToken then authToken else headerAuth)
          = true →
        verify (if jsTruthy authToken then authToken else headerAuth)
          = .error e →
        authGate (some verify) authToken headerAuth =
          .reject "AUTH_ERROR") := by
  refine ⟨rfl, ?_, ?_, ?_, ?_⟩
  · intro verify ha hh
    simp [authGate, ha, hh]
  · intro verify ht hv
    simp [authGate, ht, hv]
  · intro verify v ht hv hne
    have : (v == JsVal.boolean true) = false := by simp [hne]
    simp [authGate, ht, hv, this]
  · intro verify e ht hv
    simp [authGate, ht, hv]

/-- Concrete instantiation of the connection gate contract: all five
branches exercised on explicit tokens and verifiers. -/
theorem connection_gate_contract_check :
    (authGate none .null .null = .accept)
    ∧ (authGate (some fun _ => .ok (.boolean true)) .null .undef =
        .reject "NO_TOKEN_PROVIDED")
    ∧ (authGate (some fun _ => .ok (.boolean true)) (.str "t") .null =
        .accept)
    ∧ (authGate (some fun _ => .ok (.str "yes")) (.str "t") .null =
        .reject "UNAUTHORIZED")
    ∧ (authGate (some fun _ => .error ()) (.str "t") .null =
        .reject "AUTH_ERROR") := by
  refine ⟨(connection_gate_contract .null .null).1, ?_, ?_, ?_, ?_⟩
  · exact (connection_gate_contract .null .undef).2.1 _ (by decide) (by decide)
  · exact (connection_gate_contract (.str "t") .null).2.2.1 _
      (by decide) rfl
  · exact (connection_gate_contract (.str "t") .null).2.2.2.1 _ (.str "yes")
      (by decide) rfl (by decide)
  · exact (connection_gate_contract (.str "t") .null).2.2.2.2 _ ()
      (by decide) rfl

/-- A match stage of the aggregation pipeline built at init: collection
name in a list, collection name not in a list, or a conjunction. -/
inductive MatchCond
  | inColl (l : List String)
  | ninColl (l : List String)
  | andCond (a b : MatchCond)
deriving DecidableEq, Repr

/-- Evaluation of a match condition against the collection name of an
event, as the store applies it to ns.coll. -/
def evalCond : MatchCond → String → Bool
  | .inColl l, c => l.contains c
  | .ninColl l, c => !(l.contains c)
  | .andCond a b, c => evalCond a c && evalCond b c

/-- Pipeline construction (src/index.js lines 136 to 152): empty when both
lists are empty, an in match for watch only, a nin match for ignore only,
and the conjunction of both otherwise. -/
def buildPipeline (watch ignore : List String) : List MatchCond :=
  if watch.length ≠ 0 ∧ ignore.length = 0 then [.inColl watch]
  else if watch.length = 0 ∧ ignore.length ≠ 0 then [.ninColl ignore]
  else if watch.length ≠ 0 ∧ ignore.length ≠ 0 then
    [.andCond (.inColl watch) (.ninColl ignore)]
  else []

/-- An event passes the pipeline when every stage matches it. -/
def passesPipeline (pipeline : List MatchCond) (coll : String) : Bool :=
  pipeline.all (fun m => evalCond m coll)

/-- C7: the change feed filter passes every collection when both lists are
empty, exactly the watch collections when only watch is non-empty, all but
the ignore collections when only ignore is non-empty, and the watch
collections minus the ignore collections when both are non-empty. -/
theorem watch_ignore_filter (watch ignore : List String) (coll : String) :
    (watch = [] → ignore = [] →
      passesPipeline (buildPipeline watch ignore) coll = true)
    ∧ (watch ≠ [] → ignore = [] →
      (passesPipeline (buildPipeline watch ignore) coll = true ↔
        coll ∈ watch))
    ∧ (watch = [] → ignore ≠ [] →
      (passesPipeline (buildPipeline watch ignore) coll = true ↔
        coll ∉ ignore))
    ∧ (watch ≠ [] → ignore ≠ [] →
      (passesPipeline (buildPipeline watch ignore) coll = true ↔
        (coll ∈ watch ∧ coll ∉ ignore))) := by
  refine ⟨?_, ?_, ?_, ?_⟩
  · rintro rfl rfl
    rfl
  · intro hw hi
    have hw2 : watch.length ≠ 0 := by simpa [List.length_eq_zero] using hw
    simp [buildPipeline, passesPipeline, evalCond, hw2, hi]
  · intro hw hi
    have hi2 : ignore.length ≠ 0 := by simpa [List.length_eq_zero] using hi
    simp [buildPipeline, passesPipeline, evalCond, hw, hi2]
  · intro hw hi
    have hw2 : watch.length ≠ 0 := by simpa [List.length_eq_zero] using hw
    have hi2 : ignore.length ≠ 0 := by simpa [List.length_eq_zero] using hi
    simp [buildPipeline, passesPipeline, evalCond, hw2, hi2]

/-- Concrete instantiation of the feed filter: with watch a, b and ignore
b, collection a passes and collection b does not. -/
theorem watch_ignore_filter_check :
    (passesPipeline (buildPipeline ["a", "b"] ["b"]) "a" = true)
    ∧ (passesPipeline (buildPipeline ["a", "b"] ["b"]) "b" = false) := by
  constructor
  · exact ((watch_ignore_filter ["a", "b"] ["b"] "a").2.2.2
      (by decide) (by decide)).mpr (by decide)
  · have h := (watch_ignore_filter ["a", "b"] ["b"] "b").2.2.2
      (by decide) (by decide)
    cases hv : passesPipeline (buildPipeline ["a", "b"] ["b"]) "b"
    · rfl
    · exact absurd (h.mp hv).2 (by simp)

/-- A registered callback handle. -/
abbrev Callback := Nat

/-- The listener registry (the private listeners record): topic to the
ordered list of callbacks pushed for it. An absent topic holds no
callbacks. -/
def ListenerRegistry := String → List Callback

/-- The empty listener registry. -/
def emptyListeners : ListenerRegistry := fun _ => []

/-- The listen operation (src/index.js lines 347 to 350): push the callback
onto the list of the topic, creating the list when absent. -/
def listen (ls : ListenerRegistry) (key : String) (cb : Callback) :
    ListenerRegistry :=
  fun k => if k == key then ls k ++ [cb] else ls k

/-- notifyListeners (src/index.js lines 333 to 339) calls every callback
stored for the topic in list order; the value is that invocation
sequence. -/
def notifyInvocations (ls : ListenerRegistry) (e : String) : List Callback :=
  ls e

/-- A sequence of listen registrations applied in order from the empty
registry. -/
def applyListens (regs : List (String × Callback)) : ListenerRegistry :=
  regs.foldl (fun ls r => listen ls r.1 r.2) emptyListeners

lemma applyListens_foldl (regs : List (String × Callback))
    (init : ListenerRegistry) (topic : String) :
    (regs.foldl (fun ls r => listen ls r.1 r.2) init) topic =
      init topic ++ (regs.filter (fun r => r.1 == topic)).map
        (fun r => r.2) := by
  induction regs generalizing init with
  | nil => simp
  | cons r regs ih =>
      rw [List.foldl_cons, ih]
      by_cases hr : r.1 = topic
      · simp [listen, List.filter_cons, hr]
      · have h1 : (topic == r.1) = false := by
          simp only [beq_eq_false_iff_ne, ne_eq]
          intro e
          exact hr e.symm
        have h2 : (r.1 == topic) = false := by simp [hr]
        simp [listen, List.filter_cons, h1, h2]

/-- C9: after any sequence of listen registrations, notifying a topic
invokes exactly the callbacks registered on it, in registration order; each
registration contributes one invocation and callbacks registered only on
other topics are not invoked. -/
theorem notify_invocation_order (regs : List (String × Callback))
    (topic : String) :
    notifyInvocations (applyListens regs) topic =
      (regs.filter (fun r => r.1 == topic)).map (fun r => r.2) := by
  have h := applyListens_foldl regs emptyListeners topic
  simpa [notifyInvocations, applyListens, emptyListeners] using h

/-- One recorded cache mutation step of a change handler: the synchronous
mutation switch run when the cache is populated, the start of a snapshot
fetch when the cache entry is absent (the handler suspends on the store
call), or the install of a resolved snapshot. -/
inductive StepKind
  | syncMutate
  | fetchStart
  | install
deriving DecidableEq, Repr

/-- Scheduler tokens of the cooperative event loop for one collection: emit
the next feed event, whose handler runs synchronously up to its first
await, or resolve the pending snapshot fetch issued by an earlier handler.
The feed delivers events in order, which the emit token enforces; the
relative timing of fetch resolutions is up to the store and is left to the
schedule. -/
inductive SchedToken
  | emitNext
  | resolveFetch (task : Nat)
deriving DecidableEq, Repr

/-- Engine state restricted to one collection: the cache slot, the number
of feed events already emitted, the tasks suspended on a snapshot fetch,
and the trace of cache mutation steps taken so far. -/
structure EngineState where
  cache : Option (List Doc)
  emitted : Nat
  pendingTasks : List Nat
  trace : List (Nat × StepKind)

/-- One scheduler step over the handler of src/index.js lines 169 to 199:
emitting event k runs its handler synchronously; with a populated cache the
mutation switch applies at once, otherwise the handler starts a snapshot
fetch and suspends. Resolving a suspended fetch installs the snapshot the
store returned at that moment. -/
def schedStep (events : List (OpType × String × Doc))
    (snap : Nat → List Doc) (s : EngineState) :
    SchedToken → EngineState
  | .emitNext =>
      match events[s.emitted]? with
      | none => s
      | some ev =>
          match s.cache with
          | some c =>
              { s with
                cache := some (applyCacheEvent c ev.1 ev.2.1 ev.2.2)
                emitted := s.emitted + 1
                trace := s.trace ++ [(s.emitted, .syncMutate)] }
          | none =>
              { s with
                emitted := s.emitted + 1
                pendingTasks := s.pendingTasks ++ [s.emitted]
                trace := s.trace ++ [(s.emitted, .fetchStart)] }
  | .resolveFetch t =>
      if s.pendingTasks.contains t then
        { s with
          cache := some (fetchSnapshot (snap t))
          pendingTasks := s.pendingTasks.filter (fun x => !(x == t))
          trace := s.trace ++ [(t, .install)] }
      else s

/-- Run a schedule from an initial cache slot. -/
def runSched (events : List (OpType × String × Doc))
    (snap : Nat → List Doc) (cache0 : Option (List Doc))
    (schedule : List SchedToken) : EngineState :=
  schedule.foldl (schedStep events snap) ⟨cache0, 0, [], []⟩

/-- Check that a mutation trace is serialized in event order: the cache
work of event n plus one never begins before the cache work of event n,
including any snapshot fetch it entails, has fully applied. -/
def serialAux : List (Nat × StepKind) → Nat → Bool
  | [], _ => true
  | [(k, .fetchStart)], next => k == next
  | (k, .fetchStart) :: (j, .install) :: rest, next =>
      k == next && j == k && serialAux rest (next + 1)
  | (k, .syncMutate) :: rest, next => k == next && serialAux rest (next + 1)
  | _, _ => false

/-- A trace serialized from the first event on. -/
def serializedTrace (t : List (Nat × StepKind)) : Bool := serialAux t 0

/-- C8 counterexample: with an empty cache slot, the handler of the first
event suspends on its snapshot fetch, so the event loop can emit the second
event, whose handler begins its own cache work (a second fetch) before the
first snapshot has installed. The resulting mutation trace is not
serialized, refuting the claim that the engine never begins the cache
mutation of event n plus one before that of event n has fully applied. -/
theorem cache_mutation_not_serialized :
    (runSched
        [(OpType.insert, "1", ⟨"1", 1⟩), (OpType.insert, "2", ⟨"2", 2⟩)]
        (fun _ => []) none
        [.emitNext, .emitNext, .resolveFetch 0, .resolveFetch 1]).trace =
      [(0, .fetchStart), (1, .fetchStart), (0, .install), (1, .install)]
    ∧ serializedTrace
        [(0, .fetchStart), (1, .fetchStart), (0, .install), (1, .install)]
      = false := by
  constructor
  · rfl
  · rfl

lemma serialAux_range (n next : Nat) :
    serialAux ((List.range' next n).map
      (fun k => (k, StepKind.syncMutate))) next = true := by
  induction n generalizing next with
  | zero => rfl
  | succ n ih => simp [List.range', serialAux, ih]

/-- C8 amended: when the cache slot of the collection is populated before
the first event, every handler applies its mutation synchronously during
its emission, so under every schedule the mutation trace is exactly the
events in order, each applied atomically, and is serialized. -/
theorem serialized_when_cache_populated (c0 : List Doc)
    (events : List (OpType × String × Doc)) (snap : Nat → List Doc)
    (schedule : List SchedToken) :
    serializedTrace ((runSched events snap (some c0) schedule).trace)
      = true := by
  suffices key : ∀ (sched : List SchedToken) (s : EngineState),
      s.cache.isSome = true → s.pendingTasks = [] →
      s.trace = (List.range' 0 s.emitted).map
        (fun k => (k, StepKind.syncMutate)) →
      serializedTrace ((sched.foldl (schedStep events snap) s).trace)
        = true by
    exact key schedule ⟨some c0, 0, [], []⟩ rfl rfl rfl
  intro sched
  induction sched with
  | nil =>
      intro s h1 h2 h3
      simp only [List.foldl_nil]
      rw [h3]
      exact serialAux_range s.emitted 0
  | cons tok sched ih =>
      intro s h1 h2 h3
      rw [List.foldl_cons]
      rcases tok with _ | t
      · rcases hev : events[s.emitted]? with _ | ev
        · rw [show schedStep events snap s .emitNext = s by
            simp [schedStep, hev]]
          exact ih s h1 h2 h3
        · rcases hc : s.cache with _ | c
          · rw [hc] at h1; cases h1
          · refine ih _ ?_ ?_ ?_ <;>
              simp [schedStep, hev, hc, h2, h3, List.range'_concat]
      · rw [show schedStep events snap s (.resolveFetch t) = s by
          simp [schedStep, h2]]
        exact ih s h1 h2 h3

end MongoRealtime
